import Mathlib

/-!
Verification of the mdrip process-I/O coordination layer: a shallow embedding
of the managed shell (`NewManagedShell` / `Start` / `Execute` / `Stop`) and of
the line scanner (`BuffScanner`), with theorems settling the specification
claims about them.

The managed shell code performs OS interaction (pipes, a child process, reads
and writes).  The embedding makes that interaction explicit: each operation
takes, besides the receiver state, arguments describing what the environment
did (pipe-acquisition results, the chunks produced on the child's stdout, the
bytes available on stderr, the result of waiting for the child).  The Lean
functions then mirror the Go control flow exactly.
-/

namespace Mdrip

/-! ## String primitives mirroring the Go standard library -/

/-- Boolean test that `pat` starts the list `s` (Go `strings.HasPrefix` on the
underlying bytes, specialised to characters). -/
def leadsWith : List Char → List Char → Bool
  | [], _ => true
  | _ :: _, [] => false
  | p :: ps, c :: cs => p == c && leadsWith ps cs

/-- Boolean substring test (Go `strings.Contains`). -/
def containsSeq (pat : List Char) : List Char → Bool
  | [] => pat.isEmpty
  | c :: rest => leadsWith pat (c :: rest) || containsSeq pat rest

/-- Go `strings.Contains(s, pat)`. -/
def containsStr (s pat : String) : Bool :=
  containsSeq pat.data s.data

/-- Fuelled worker for `goReplace`: scans left to right, replacing each
occurrence of `pat` and continuing after it, exactly as Go
`strings.Replace(s, old, new, -1)` does for a non-empty `old`.  The fuel is
the length of the scanned list, which bounds the number of steps. -/
def replaceAllAux (pat repl : List Char) : Nat → List Char → List Char
  | 0, s => s
  | _ + 1, [] => []
  | fuel + 1, c :: rest =>
    if leadsWith pat (c :: rest) then
      repl ++ replaceAllAux pat repl fuel (List.drop (pat.length - 1) rest)
    else
      c :: replaceAllAux pat repl fuel rest

/-- Go `strings.Replace(s, pat, repl, -1)`. -/
def goReplace (s pat repl : String) : String :=
  ⟨replaceAllAux pat.data repl.data s.data.length s.data⟩

/-- Go `unicode.IsSpace` restricted to Latin-1, the set used by
`strings.TrimSpace` on the outputs that occur here. -/
def isGoSpace (c : Char) : Bool :=
  c.toNat = 9 || c.toNat = 10 || c.toNat = 11 || c.toNat = 12 || c.toNat = 13 ||
  c.toNat = 32 || c.toNat = 133 || c.toNat = 160

/-- Drop leading white space characters. -/
def dropSpaces : List Char → List Char
  | [] => []
  | c :: rest => if isGoSpace c then dropSpaces rest else c :: rest

/-- Go `strings.TrimSpace`. -/
def goTrimSpace (s : String) : String :=
  ⟨(dropSpaces (dropSpaces s.data.reverse).reverse)⟩

/-- Concatenation of a list of strings, cons-unfolding definitionally. -/
def concatAll : List String → String
  | [] => ""
  | s :: ss => s ++ concatAll ss

/-! ## The managed shell data model (`shell` package) -/

/-- The command object (`exec.Cmd`): a path plus, once launched, a process
handle.  `exec.Cmd.Start` is what populates `process`. -/
structure Cmd where
  path : String
  process : Option Unit
deriving DecidableEq

/-- `ManagedShell` mirrors the Go struct: a nullable command object and three
nullable stream handles. -/
structure ManagedShell where
  cmd : Option Cmd
  stdin : Option Unit
  stdout : Option Unit
  stderr : Option Unit
deriving DecidableEq

/-- The Go guard used by both `Execute` and `Stop`:
`ms.cmd != nil && ms.cmd.Process != nil`. -/
def ManagedShell.isRunning (ms : ManagedShell) : Bool :=
  match ms.cmd with
  | none => false
  | some c => c.process.isSome

/-- All three stream handles populated. -/
def allStreamsSet (ms : ManagedShell) : Bool :=
  ms.stdin.isSome && ms.stdout.isSome && ms.stderr.isSome

/-- All three stream handles null. -/
def allStreamsClear (ms : ManagedShell) : Bool :=
  ms.stdin.isNone && ms.stdout.isNone && ms.stderr.isNone

/-- The all-or-none stream invariant claimed by the specification. -/
def streamInvariant (ms : ManagedShell) : Bool :=
  allStreamsSet ms || allStreamsClear ms

/-- `NewManagedShell`: rejects an empty path, otherwise builds the command
object without launching anything. -/
def NewManagedShell (shellPath : String) : Except String ManagedShell :=
  if shellPath = "" then Except.error "shellPath cannot be empty"
  else Except.ok ⟨some ⟨shellPath, none⟩, none, none, none⟩

/-- The shell obtained from a successful `NewManagedShell`, with a default for
the rejected empty path (used only to build concrete test states). -/
def newShellOr (p : String) : ManagedShell :=
  match NewManagedShell p with
  | Except.ok ms => ms
  | Except.error _ => ⟨none, none, none, none⟩

/-- `Start`: acquires the three pipes in order (stdin, stdout, stderr), then
launches the process.  Each `Option String` argument is the error, if any,
that the corresponding OS call produced.  The body mirrors the Go assignments:
a failed pipe call stores the null handle it returned and aborts, leaving the
handles acquired before it in place; a failed launch leaves all three handles
in place with no process. -/
def ManagedShell.Start (ms : ManagedShell)
    (stdinPipeErr stdoutPipeErr stderrPipeErr launchErr : Option String) :
    ManagedShell × Option String :=
  match stdinPipeErr with
  | some e => ({ ms with stdin := none }, some ("failed to get stdin pipe: " ++ e))
  | none =>
    let ms1 := { ms with stdin := some () }
    match stdoutPipeErr with
    | some e => ({ ms1 with stdout := none }, some ("failed to get stdout pipe: " ++ e))
    | none =>
      let ms2 := { ms1 with stdout := some () }
      match stderrPipeErr with
      | some e => ({ ms2 with stderr := none }, some ("failed to get stderr pipe: " ++ e))
      | none =>
        let ms3 := { ms2 with stderr := some () }
        match launchErr with
        | some e => (ms3, some ("failed to start shell process: " ++ e))
        | none =>
          ({ ms3 with cmd := ms3.cmd.map fun c => { c with process := some () } }, none)

/-- One result of a `Read` call on the child's stdout pipe: a chunk of data
with no error, end of stream, or a read error (the latter two both terminate
the drain loop, the error merely being logged when it is not EOF). -/
inductive ChunkEv
  | data (s : String)
  | eof
  | readErr (msg : String)
deriving DecidableEq

/-- The fixed sentinel literal from `Execute`. -/
def delimiter : String := "END_OF_COMMAND_OUTPUT_DELIMITER"

/-- The stdout drain loop of `Execute`: accumulate chunks until the
accumulated text contains the sentinel or the stream ends or errors. -/
def drainStdout : List ChunkEv → String → String
  | [], acc => acc
  | ChunkEv.eof :: _, acc => acc
  | ChunkEv.readErr _ :: _, acc => acc
  | ChunkEv.data s :: rest, acc =>
    if containsStr (acc ++ s) delimiter then acc ++ s
    else drainStdout rest (acc ++ s)

/-- The outcome of one `Execute` call: the three returned values plus the
record of what was written to the child's stdin. -/
structure ExecOutcome where
  stdout : String
  stderr : String
  err : Option String
  writes : List String
deriving DecidableEq

/-- The body of `Execute` past the not-started guard: compose the command with
the sentinel echo, write it, drain stdout up to the sentinel, read stderr to
end of stream, then strip the sentinel line and the echo invocation from
stdout and trim it.  `writeErr` is the error, if any, of the stdin write;
`stdoutReads` the successive stdout read results; `stderrContent` what
`io.ReadAll` returned from stderr. -/
def execRun (writeErr : Option String) (stdoutReads : List ChunkEv)
    (stderrContent command : String) : ExecOutcome :=
  let fullCommand := command ++ "\necho \"" ++ delimiter ++ "\"\n"
  match writeErr with
  | some e => ⟨"", "", some ("failed to write to stdin: " ++ e), [fullCommand]⟩
  | none =>
    let raw := drainStdout stdoutReads ""
    let s1 := goReplace raw (delimiter ++ "\n") ""
    let s2 := goReplace s1 ("echo \"" ++ delimiter ++ "\"\n") ""
    ⟨goTrimSpace s2, stderrContent, none, [fullCommand]⟩

/-- `Execute`: fails immediately when no process is running, writing nothing;
otherwise proceeds as `execRun`. -/
def ManagedShell.Execute (ms : ManagedShell) (writeErr : Option String)
    (stdoutReads : List ChunkEv) (stderrContent command : String) : ExecOutcome :=
  if ms.isRunning then execRun writeErr stdoutReads stderrContent command
  else ⟨"", "", some "shell process not started", []⟩

/-- The result of `exec.Cmd.Wait` in `Stop`: clean exit, an `exec.ExitError`
(the expected "signal: killed" case), or any other error. -/
inductive WaitResult
  | ok
  | exitErr (msg : String)
  | otherErr (msg : String)
deriving DecidableEq

/-- The state left by a completed `Stop`: every field nil. -/
def stoppedShell : ManagedShell := ⟨none, none, none, none⟩

/-- `Stop`: a no-op success when no process is running.  Otherwise stdin close
and kill errors are only logged (`closeErr`, `killErr` do not influence the
result); the wait result decides the outcome: a clean exit or an
`exec.ExitError` reach the end of the function, which nils every field and
returns success, while any other wait error returns early with the state
untouched. -/
def ManagedShell.Stop (ms : ManagedShell) (_closeErr _killErr : Option String)
    (wait : WaitResult) : ManagedShell × Option String :=
  if ms.isRunning then
    match wait with
    | WaitResult.otherErr m =>
        (ms, some ("failed to wait for shell process to exit: " ++ m))
    | _ => (stoppedShell, none)
  else (ms, none)

/-- A concrete shell on which `Start` has succeeded. -/
def msRunning : ManagedShell := ((newShellOr "/bin/bash").Start none none none none).1

/-! ## Basic lemmas about the shell model -/

theorem Execute_of_running {ms : ManagedShell} (h : ms.isRunning = true)
    (writeErr : Option String) (stdoutReads : List ChunkEv)
    (stderrContent command : String) :
    ms.Execute writeErr stdoutReads stderrContent command
      = execRun writeErr stdoutReads stderrContent command := by
  simp [ManagedShell.Execute, h]

/-! ## Claims C1 and C7 -/

/-- Claim C1: on every session whose `Start` succeeded, `Execute "echo hello"`
(whose child emits `hello` and the sentinel line on stdout and nothing on
stderr) returns stdout `"hello"`, stderr `""` and no error, and
`Execute ">&2 echo err"` (whose child emits only the sentinel line on stdout
and `err` plus newline on stderr) returns stdout `""`, stderr `"err\n"` and no
error: the sentinel occurrence and the echo invocation text are removed from
stdout and stdout alone is whitespace-trimmed, while stderr keeps its trailing
newline. -/
theorem C1_execute_echo (ms : ManagedShell) (h : ms.isRunning = true) :
    ms.Execute none [ChunkEv.data ("hello\n" ++ delimiter ++ "\n")] "" "echo hello"
        = ⟨"hello", "", none, ["echo hello" ++ "\necho \"" ++ delimiter ++ "\"\n"]⟩ ∧
    ms.Execute none [ChunkEv.data (delimiter ++ "\n")] "err\n" ">&2 echo err"
        = ⟨"", "err\n", none, [">&2 echo err" ++ "\necho \"" ++ delimiter ++ "\"\n"]⟩ := by
  rw [Execute_of_running h, Execute_of_running h]
  exact ⟨by decide, by decide⟩

/-- Witness for C1 at the concrete started shell. -/
theorem C1_execute_echo_witness :
    msRunning.Execute none [ChunkEv.data ("hello\n" ++ delimiter ++ "\n")] "" "echo hello"
        = ⟨"hello", "", none, ["echo hello" ++ "\necho \"" ++ delimiter ++ "\"\n"]⟩ ∧
    msRunning.Execute none [ChunkEv.data (delimiter ++ "\n")] "err\n" ">&2 echo err"
        = ⟨"", "err\n", none, [">&2 echo err" ++ "\necho \"" ++ delimiter ++ "\"\n"]⟩ :=
  C1_execute_echo msRunning (by decide)

/-- Claim C7: on every shell that is not running (never started, start failed,
or stopped), `Execute` fails immediately with the `shell process not started`
error, returns empty stdout and stderr, and writes nothing to the child's
stdin. -/
theorem C7_execute_not_started (ms : ManagedShell) (h : ms.isRunning = false)
    (writeErr : Option String) (stdoutReads : List ChunkEv)
    (stderrContent command : String) :
    ms.Execute writeErr stdoutReads stderrContent command
      = ⟨"", "", some "shell process not started", []⟩ := by
  simp [ManagedShell.Execute, h]

/-- Witness for C7: a never-started shell and a stopped shell both reject
`Execute`. -/
theorem C7_execute_not_started_witness :
    (newShellOr "/bin/bash").Execute none [] "" "echo too late"
        = ⟨"", "", some "shell process not started", []⟩ ∧
    ((msRunning.Stop none none WaitResult.ok).1).Execute none [] "" "echo too late"
        = ⟨"", "", some "shell process not started", []⟩ :=
  ⟨C7_execute_not_started _ (by decide) none [] "" "echo too late",
   C7_execute_not_started _ (by decide) none [] "" "echo too late"⟩

/-- String append is associative (via the underlying character lists). -/
theorem strAppend_assoc (a b c : String) : a ++ b ++ c = a ++ (b ++ c) := by
  cases a; cases b; cases c
  exact congrArg String.mk (List.append_assoc _ _ _)

/-- The sentinel suffix that `Execute` appends is one and the same literal for
every command. -/
theorem fullCommand_fixed (c : String) :
    c ++ "\necho \"" ++ delimiter ++ "\"\n"
      = c ++ "\necho \"END_OF_COMMAND_OUTPUT_DELIMITER\"\n" := by
  rw [strAppend_assoc, strAppend_assoc]
  exact congrArg (fun s => c ++ s) (by decide)

/-! ## Claims C3, C8, C9 and C10 -/

/-- Counterexample to claim C3: starting a freshly created shell with a
failing stdout-pipe acquisition leaves `stdin` populated while `stdout` and
`stderr` are null — a partially populated stream state, which the claim says
never happens. -/
theorem C3_counterexample :
    streamInvariant ((newShellOr "/bin/bash").Start none (some "pipe failed") none none).1
      = false := by decide

/-- Claim C3, amended: the all-or-none stream invariant holds for a fresh
instance, after a successful `Start` (which also launches the process exactly
when a command object exists) and after a completed `Stop`; but a `Start` that
fails mid-way retains the handles acquired before the failing step: a
stdout-pipe failure keeps `stdin` set with `stdout` and `stderr` null, a
stderr-pipe failure keeps `stdin` and `stdout` set, and a launch failure keeps
all three handles set with no process. -/
theorem C3_stream_states :
    (∀ p : String, allStreamsClear (newShellOr p) = true
        ∧ (newShellOr p).isRunning = false) ∧
    (∀ ms : ManagedShell,
        allStreamsSet (ms.Start none none none none).1 = true
        ∧ (ms.Start none none none none).1.isRunning = ms.cmd.isSome
        ∧ (ms.Start none none none none).2 = none) ∧
    (∀ (ms : ManagedShell) (ce ke : Option String),
        (ms.Stop ce ke WaitResult.ok).1
          = if ms.isRunning then stoppedShell else ms) ∧
    allStreamsClear stoppedShell = true ∧
    (∀ (ms : ManagedShell) (e : String),
        (ms.Start (some e) none none none).1.stdin = none) ∧
    (∀ (ms : ManagedShell) (e : String),
        (ms.Start none (some e) none none).1.stdin = some ()
        ∧ (ms.Start none (some e) none none).1.stdout = none
        ∧ (ms.Start none (some e) none none).1.stderr = ms.stderr) ∧
    (∀ (ms : ManagedShell) (e : String),
        (ms.Start none none (some e) none).1.stdin = some ()
        ∧ (ms.Start none none (some e) none).1.stdout = some ()
        ∧ (ms.Start none none (some e) none).1.stderr = none) ∧
    (∀ (ms : ManagedShell) (e : String),
        allStreamsSet (ms.Start none none none (some e)).1 = true
        ∧ (ms.Start none none none (some e)).1.cmd = ms.cmd) := by
  refine ⟨?_, ?_, ?_, by decide, ?_, ?_, ?_, ?_⟩
  · intro p
    by_cases hp : p = ""
    · subst hp; exact ⟨by decide, by decide⟩
    · simp [newShellOr, NewManagedShell, hp, allStreamsClear, ManagedShell.isRunning]
  · intro ms
    cases ms with
    | mk c i o e =>
      cases c with
      | none => simp [ManagedShell.Start, allStreamsSet, ManagedShell.isRunning]
      | some cc => simp [ManagedShell.Start, allStreamsSet, ManagedShell.isRunning]
  · intro ms ce ke
    by_cases h : ms.isRunning
    · simp [ManagedShell.Stop, h]
    · simp [ManagedShell.Stop, h]
  · intro ms e; simp [ManagedShell.Start]
  · intro ms e; simp [ManagedShell.Start]
  · intro ms e; simp [ManagedShell.Start]
  · intro ms e
    cases ms with
    | mk c i o er =>
      cases c with
      | none => simp [ManagedShell.Start, allStreamsSet]
      | some cc => simp [ManagedShell.Start, allStreamsSet]

/-- Counterexample to claim C8: after a `Stop` on a running shell fails at the
process wait with a non-exit-status error (leaving the shell running), the
next `Stop` — a later call of a `Stop` sequence with no intervening `Start` —
can itself fail again, or can succeed while changing the state. -/
theorem C8_counterexample :
    (msRunning.Stop none none (WaitResult.otherErr "waitid: no child")).2 ≠ none ∧
    ((msRunning.Stop none none (WaitResult.otherErr "waitid: no child")).1.Stop
        none none (WaitResult.otherErr "waitid: no child")).2 ≠ none ∧
    ((msRunning.Stop none none (WaitResult.otherErr "waitid: no child")).1.Stop
        none none WaitResult.ok).1
      ≠ (msRunning.Stop none none (WaitResult.otherErr "waitid: no child")).1 := by
  decide

/-- Claim C8, amended: every `Stop` on a shell that is not running (never
started, or whose earlier `Stop` completed) returns success and leaves the
state unchanged; and after any `Stop` that returned success, every further
`Stop` without an intervening `Start` returns success and leaves the state
unchanged.  (The original claim fails only when an earlier `Stop` aborted with
a wait failure, leaving the shell running.) -/
theorem C8_stop_idempotent :
    (∀ (ms : ManagedShell) (ce ke : Option String) (w : WaitResult),
        ms.isRunning = false → ms.Stop ce ke w = (ms, none)) ∧
    (∀ (ms : ManagedShell) (ce ke : Option String) (w : WaitResult),
        (ms.Stop ce ke w).2 = none →
        ∀ (ce' ke' : Option String) (w' : WaitResult),
          (ms.Stop ce ke w).1.Stop ce' ke' w' = ((ms.Stop ce ke w).1, none)) := by
  have hbase : ∀ (ms : ManagedShell) (ce ke : Option String) (w : WaitResult),
      ms.isRunning = false → ms.Stop ce ke w = (ms, none) := by
    intro ms ce ke w h
    simp [ManagedShell.Stop, h]
  refine ⟨hbase, ?_⟩
  intro ms ce ke w h ce' ke' w'
  by_cases hr : ms.isRunning
  · cases w with
    | ok =>
      have h1 : (ms.Stop ce ke WaitResult.ok).1 = stoppedShell := by
        simp [ManagedShell.Stop, hr]
      rw [h1]
      exact hbase _ _ _ _ (by decide)
    | exitErr m =>
      have h1 : (ms.Stop ce ke (WaitResult.exitErr m)).1 = stoppedShell := by
        simp [ManagedShell.Stop, hr]
      rw [h1]
      exact hbase _ _ _ _ (by decide)
    | otherErr m =>
      exfalso
      have : (ms.Stop ce ke (WaitResult.otherErr m)).2
          = some ("failed to wait for shell process to exit: " ++ m) := by
        simp [ManagedShell.Stop, hr]
      rw [this] at h
      exact Option.some_ne_none _ h
  · have hf : ms.isRunning = false := by
      cases hb : ms.isRunning
      · rfl
      · exact absurd hb hr
    have h1 := hbase ms ce ke w hf
    rw [h1]
    exact hbase ms ce' ke' w' hf

/-- Witness for C8: a never-started shell accepts `Stop` as a no-op success,
and after a completed `Stop` of the started shell a further `Stop` with a
failing wait still succeeds without changing the state. -/
theorem C8_stop_idempotent_witness :
    (newShellOr "/bin/bash").Stop none none WaitResult.ok
        = (newShellOr "/bin/bash", none) ∧
    ((msRunning.Stop none none WaitResult.ok).1.Stop none none
        (WaitResult.otherErr "waitid: no child"))
      = ((msRunning.Stop none none WaitResult.ok).1, none) :=
  ⟨C8_stop_idempotent.1 _ none none WaitResult.ok (by decide),
   C8_stop_idempotent.2 msRunning none none WaitResult.ok (by decide) none none
     (WaitResult.otherErr "waitid: no child")⟩

/-- Claim C9: on a running shell, a clean exit and an exit-status error (the
"killed" outcome) from the process wait are both treated as the expected
successful result of `Stop`; only a wait failure that is not an exit-status
error is surfaced (as the shutdown-failure message), and it leaves the state
untouched; every path on which `Stop` returns success ends with all stream
handles and the process handle absent. -/
theorem C9_stop_outcomes (ms : ManagedShell) (h : ms.isRunning = true)
    (ce ke : Option String) :
    ms.Stop ce ke WaitResult.ok = (stoppedShell, none) ∧
    (∀ m : String, ms.Stop ce ke (WaitResult.exitErr m) = (stoppedShell, none)) ∧
    (∀ m : String, ms.Stop ce ke (WaitResult.otherErr m)
        = (ms, some ("failed to wait for shell process to exit: " ++ m))) ∧
    (∀ w : WaitResult, (ms.Stop ce ke w).2 = none → (ms.Stop ce ke w).1 = stoppedShell) := by
  refine ⟨by simp [ManagedShell.Stop, h], fun m => by simp [ManagedShell.Stop, h],
    fun m => by simp [ManagedShell.Stop, h], fun w hw => ?_⟩
  cases w with
  | ok => simp [ManagedShell.Stop, h]
  | exitErr m => simp [ManagedShell.Stop, h]
  | otherErr m =>
    exfalso
    have : (ms.Stop ce ke (WaitResult.otherErr m)).2
        = some ("failed to wait for shell process to exit: " ++ m) := by
      simp [ManagedShell.Stop, h]
    rw [this] at hw
    exact Option.some_ne_none _ hw

/-- Witness for C9 at the concrete started shell, with the "signal: killed"
exit status. -/
theorem C9_stop_outcomes_witness :
    msRunning.Stop none none WaitResult.ok = (stoppedShell, none) ∧
    msRunning.Stop none none (WaitResult.exitErr "signal: killed") = (stoppedShell, none) ∧
    msRunning.Stop none none (WaitResult.otherErr "waitid: no child")
      = (msRunning, some ("failed to wait for shell process to exit: " ++ "waitid: no child")) := by
  have h := C9_stop_outcomes msRunning (by decide) none none
  exact ⟨h.1, h.2.1 "signal: killed", h.2.2.1 "waitid: no child"⟩

/-- Claim C10: the sentinel is the same fixed literal on every `Execute` call
(the line written to stdin is always the command followed by the one literal
sentinel echo); the returned stdout has every occurrence of the sentinel
followed by a newline and of the literal echo invocation followed by a newline
deleted, so a command whose own output contains those substrings has them
silently removed; and the drain stops at the first read after which the
accumulated bytes contain the sentinel, so output after that point is never
read. -/
theorem C10_sentinel_framing :
    (∀ (c serr : String) (evs : List ChunkEv),
        (msRunning.Execute none evs serr c).writes
          = [c ++ "\necho \"END_OF_COMMAND_OUTPUT_DELIMITER\"\n"]) ∧
    (msRunning.Execute none
        [ChunkEv.data ("A\n" ++ delimiter ++ "\nB\necho \"" ++ delimiter ++ "\"\nC\n"
          ++ delimiter ++ "\n")] "" "cat trap.txt").stdout = "A\nB\nC" ∧
    ExecOutcome.stdout (msRunning.Execute none
        [ChunkEv.data ("x\n" ++ delimiter ++ "\n"), ChunkEv.data "y\n"] "" "show x")
      = "x" := by
  refine ⟨fun c serr evs => ?_, by decide, by decide⟩
  rw [Execute_of_running (by decide : msRunning.isRunning = true)]
  show [c ++ "\necho \"" ++ delimiter ++ "\"\n"] = _
  rw [fullCommand_fixed]

/-! ## Claim C2: the drain stops once the sentinel has been accumulated -/

theorem strAppend_empty (s : String) : s ++ "" = s := by
  cases s
  exact congrArg String.mk (List.append_nil _)

theorem strEmpty_append (s : String) : "" ++ s = s := by
  cases s
  rfl

theorem leadsWith_append {pat x : List Char} (h : leadsWith pat x = true)
    (y : List Char) : leadsWith pat (x ++ y) = true := by
  induction pat generalizing x with
  | nil => rfl
  | cons p ps ih =>
    cases x with
    | nil => simp [leadsWith] at h
    | cons c cs =>
      simp only [leadsWith, Bool.and_eq_true, beq_iff_eq] at h
      simp only [List.cons_append, leadsWith, Bool.and_eq_true, beq_iff_eq]
      exact ⟨h.1, ih h.2⟩

theorem containsSeq_nil_pat (l : List Char) : containsSeq [] l = true := by
  induction l with
  | nil => rfl
  | cons c rest ih => simp [containsSeq, leadsWith]

theorem containsSeq_append_left {pat x : List Char} (h : containsSeq pat x = true)
    (y : List Char) : containsSeq pat (x ++ y) = true := by
  induction x with
  | nil =>
    have hp : pat = [] := by
      cases pat with
      | nil => rfl
      | cons p ps => simp [containsSeq] at h
    subst hp
    exact containsSeq_nil_pat y
  | cons c cs ih =>
    simp only [containsSeq, Bool.or_eq_true] at h
    simp only [List.cons_append, containsSeq, Bool.or_eq_true]
    cases h with
    | inl hl => exact Or.inl (by simpa using leadsWith_append hl y)
    | inr hr => exact Or.inr (ih hr)

theorem containsStr_append_left {a p : String} (h : containsStr a p = true)
    (b : String) : containsStr (a ++ b) p = true := by
  simp only [containsStr, String.data_append]
  simp only [containsStr] at h
  exact containsSeq_append_left h b.data

/-- Once the accumulated stdout of the drain loop is guaranteed to contain the
sentinel within the data chunks `cs`, the drain result does not depend on
anything the stream would produce afterwards: the loop has stopped. -/
theorem drainStdout_indep (cs : List String) :
    ∀ (acc : String) (post post' : List ChunkEv),
      containsStr acc delimiter = false →
      containsStr (acc ++ concatAll cs) delimiter = true →
      drainStdout (cs.map ChunkEv.data ++ post) acc
        = drainStdout (cs.map ChunkEv.data ++ post') acc := by
  induction cs with
  | nil =>
    intro acc post post' hno hyes
    exfalso
    rw [show concatAll [] = "" from rfl, strAppend_empty] at hyes
    rw [hno] at hyes
    exact Bool.false_ne_true hyes
  | cons s ss ih =>
    intro acc post post' hno hyes
    simp only [List.map_cons, List.cons_append, drainStdout]
    by_cases hc : containsStr (acc ++ s) delimiter = true
    · rw [if_pos hc, if_pos hc]
    · rw [if_neg hc, if_neg hc]
      have hcf : containsStr (acc ++ s) delimiter = false := by
        cases hb : containsStr (acc ++ s) delimiter
        · rfl
        · exact absurd hb hc
      apply ih (acc ++ s) post post' hcf
      rw [strAppend_assoc]
      exact hyes

/-- Claim C2: on a running shell, whenever the stdout stream eventually
contains the sentinel among its data chunks, `Execute` returns its three
results — one stdout string that is already fully determined at the point the
sentinel is observed (whatever the stream would carry afterwards), the whole
stderr content drained to end-of-stream, and no error. -/
theorem C2_execute_returns (ms : ManagedShell) (h : ms.isRunning = true)
    (cs : List String) (hsent : containsStr (concatAll cs) delimiter = true)
    (stderrContent command : String) :
    ∃ out : String, ∀ post : List ChunkEv,
      ms.Execute none (cs.map ChunkEv.data ++ post) stderrContent command
        = ⟨out, stderrContent, none,
            [command ++ "\necho \"" ++ delimiter ++ "\"\n"]⟩ := by
  refine ⟨goTrimSpace (goReplace (goReplace (drainStdout (cs.map ChunkEv.data) "")
    (delimiter ++ "\n") "") ("echo \"" ++ delimiter ++ "\"\n") ""), fun post => ?_⟩
  rw [Execute_of_running h]
  have hd : drainStdout (cs.map ChunkEv.data ++ post) ""
      = drainStdout (cs.map ChunkEv.data) "" := by
    have h1 : containsStr ("" ++ concatAll cs) delimiter = true := by
      rw [strEmpty_append]
      exact hsent
    have h2 := drainStdout_indep cs "" post [] (by decide) h1
    simpa using h2
  simp only [execRun]
  rw [hd]

/-- Witness for C2 at the concrete started shell, with the sentinel arriving
in the single stdout chunk. -/
theorem C2_execute_returns_witness :
    ∃ out : String, ∀ post : List ChunkEv,
      msRunning.Execute none (([delimiter ++ "\n"]).map ChunkEv.data ++ post) "err\n" "pwd"
        = ⟨out, "err\n", none, ["pwd" ++ "\necho \"" ++ delimiter ++ "\"\n"]⟩ :=
  C2_execute_returns msRunning (by decide) [delimiter ++ "\n"] (by decide) "err\n" "pwd"

/-! ## The line scanner (`scanner` package)

Modelled from the spec: the scanner implementation (`BuffScanner` with its
`MsgTimeout` and `MsgError` constants) is not among the available source
files — only its tests are — so the definitions below follow the
specification's algorithm and reserved strings for it. -/

/-- Modelled from the spec: one result of a `Read` call on the source — a
chunk of bytes with no error (possibly zero bytes), end of stream, a read
error, or a read that stays blocked past the timeout. -/
inductive ReadOutcome
  | bytes (s : List Char)
  | eof
  | rerr
  | stall
deriving DecidableEq

/-- Modelled from the spec: the reserved channel payload for a timed-out
source. -/
def MsgTimeout : String := "timeout"

/-- Modelled from the spec: the error marker token that begins the
malfunction payload. -/
def MsgError : String := "error"

/-- What one scan delivers: the channel's lines in order (the channel closes
after the last one), and whether the source was closed. -/
structure ScanResult where
  lines : List String
  closedSource : Bool
deriving DecidableEq

/-- Split the complete (newline-terminated) lines off the front of a
character buffer; `cur` holds the reversed current partial line.  Returns the
complete lines and the trailing partial line. -/
def splitCompleteAux : List Char → List Char → List String × List Char
  | cur, [] => ([], cur.reverse)
  | cur, c :: rest =>
    if c = '\n' then
      let r := splitCompleteAux [] rest
      (String.mk cur.reverse :: r.1, r.2)
    else splitCompleteAux (c :: cur) rest

/-- All lines of a byte content: the complete lines plus the final
unterminated line when non-empty. -/
def linesOf (content : List Char) : List String :=
  let r := splitCompleteAux [] content
  r.1 ++ (if r.2.isEmpty then [] else [String.mk r.2])

/-- Modelled from the spec: the scanner's read loop.  `buf` is the retained
partial line and `stallCount` the number of consecutive zero-byte no-error
reads.  A chunk pushes its complete lines and resets the count; a second
consecutive empty read emits the malfunction line and stops; a read blocked
past the timeout emits the timeout line and stops; end of stream flushes the
partial line; a read error stops silently.  Every terminating branch closes
the source exactly once. -/
def scanRun : List ReadOutcome → List Char → Nat → ScanResult
  | [], _, _ => ⟨[], false⟩
  | ReadOutcome.stall :: _, _, _ => ⟨[MsgTimeout], true⟩
  | ReadOutcome.eof :: _, buf, _ =>
      ⟨if buf.isEmpty then [] else [String.mk buf], true⟩
  | ReadOutcome.rerr :: _, _, _ => ⟨[], true⟩
  | ReadOutcome.bytes s :: rest, buf, stallCount =>
    if s.isEmpty then
      if stallCount + 1 > 1 then
        ⟨[MsgError ++ " : multiple Read calls return no data or error"], true⟩
      else scanRun rest buf (stallCount + 1)
    else
      let r := splitCompleteAux [] (buf ++ s)
      let res := scanRun rest r.2 0
      ⟨r.1 ++ res.lines, res.closedSource⟩

/-- Modelled from the spec: `BuffScanner(timeout, label, source)`.  The
timeout duration and the diagnostic label do not influence which lines are
delivered, so they are carried but unused. -/
def BuffScanner (_timeoutSecs : Nat) (_label : String)
    (reads : List ReadOutcome) : ScanResult :=
  scanRun reads [] 0

/-! ## Lemmas about line splitting -/

theorem splitCompleteAux_no_newline_input :
    ∀ (src cur : List Char), (∀ c ∈ src, c ≠ '\n') →
      splitCompleteAux cur src = ([], cur.reverse ++ src) := by
  intro src
  induction src with
  | nil => intro cur _; simp [splitCompleteAux]
  | cons a rest ih =>
    intro cur h
    have ha : a ≠ '\n' := h a (List.mem_cons_self a rest)
    simp only [splitCompleteAux, if_neg ha]
    rw [ih (a :: cur) (fun c hc => h c (List.mem_cons_of_mem a hc))]
    simp [List.append_assoc]

theorem splitCompleteAux_partial_no_newline :
    ∀ (src cur : List Char), (∀ c ∈ cur, c ≠ '\n') →
      ∀ c ∈ (splitCompleteAux cur src).2, c ≠ '\n' := by
  intro src
  induction src with
  | nil =>
    intro cur hcur c hc
    simp only [splitCompleteAux] at hc
    exact hcur c (by simpa using hc)
  | cons a rest ih =>
    intro cur hcur c hc
    by_cases ha : a = '\n'
    · subst ha
      simp only [splitCompleteAux, if_pos rfl] at hc
      exact ih [] (by simp) c hc
    · simp only [splitCompleteAux, if_neg ha] at hc
      refine ih (a :: cur) ?_ c hc
      intro x hx
      rcases List.mem_cons.mp hx with hx1 | hx2
      · subst hx1; exact ha
      · exact hcur x hx2

theorem splitCompleteAux_shift :
    ∀ (pre : List Char), (∀ c ∈ pre, c ≠ '\n') →
      ∀ (cur src : List Char),
        splitCompleteAux cur (pre ++ src) = splitCompleteAux (pre.reverse ++ cur) src := by
  intro pre
  induction pre with
  | nil => intro _ cur src; simp
  | cons a pre' ih =>
    intro h cur src
    have ha : a ≠ '\n' := h a (List.mem_cons_self a pre')
    simp only [List.cons_append, List.append_eq, splitCompleteAux, if_neg ha]
    rw [ih (fun c hc => h c (List.mem_cons_of_mem a hc)) (a :: cur) src]
    congr 1
    simp [List.append_assoc]

theorem splitCompleteAux_append :
    ∀ (a cur b : List Char),
      splitCompleteAux cur (a ++ b)
        = ((splitCompleteAux cur a).1
            ++ (splitCompleteAux ((splitCompleteAux cur a).2.reverse) b).1,
           (splitCompleteAux ((splitCompleteAux cur a).2.reverse) b).2) := by
  intro a
  induction a with
  | nil =>
    intro cur b
    simp [splitCompleteAux]
  | cons c a' ih =>
    intro cur b
    by_cases hc : c = '\n'
    · subst hc
      simp only [List.cons_append, List.append_eq, splitCompleteAux, if_true]
      rw [ih []]
    · simp only [List.cons_append, List.append_eq, splitCompleteAux, if_neg hc]
      exact ih (c :: cur) b

/-- The scanner, fed any sequence of non-empty data chunks followed by end of
stream, delivers exactly the lines of the concatenated content (the trailing
partial line flushed as a final line) and closes the source. -/
theorem scanRun_bytes_eof (chunks : List (List Char)) :
    ∀ buf : List Char, (∀ s ∈ chunks, s ≠ []) → (∀ c ∈ buf, c ≠ '\n') →
      scanRun (chunks.map ReadOutcome.bytes ++ [ReadOutcome.eof]) buf 0
        = ⟨linesOf (buf ++ chunks.flatten), true⟩ := by
  induction chunks with
  | nil =>
    intro buf _ hbuf
    simp only [List.map_nil, List.nil_append, scanRun, List.flatten_nil, List.append_nil]
    rw [linesOf, splitCompleteAux_no_newline_input buf [] hbuf]
    cases buf with
    | nil => simp
    | cons c cs => simp
  | cons s ss ih =>
    intro buf hchunks hbuf
    have hs : s ≠ [] := hchunks s (List.mem_cons_self s ss)
    have hsE : s.isEmpty = false := by
      cases s with
      | nil => exact absurd rfl hs
      | cons c cs => rfl
    have hpart : ∀ c ∈ (splitCompleteAux [] (buf ++ s)).2, c ≠ '\n' :=
      splitCompleteAux_partial_no_newline (buf ++ s) [] (by simp)
    simp only [List.map_cons, List.cons_append, List.append_eq, scanRun, hsE,
      Bool.false_eq_true, if_false]
    rw [ih ((splitCompleteAux [] (buf ++ s)).2)
        (fun t ht => hchunks t (List.mem_cons_of_mem s ht)) hpart]
    have hshift := splitCompleteAux_shift ((splitCompleteAux [] (buf ++ s)).2) hpart
      [] ss.flatten
    rw [List.append_nil] at hshift
    have hflat : buf ++ (s :: ss).flatten = (buf ++ s) ++ ss.flatten := by
      rw [List.flatten_cons, List.append_assoc]
    rw [hflat]
    simp only [linesOf]
    rw [splitCompleteAux_append (buf ++ s) [] ss.flatten, hshift]
    simp [List.append_assoc]

/-! ## Claims C4, C5 and C6 -/

/-- Claim C4 (spec-modelled): whenever the source's read blocks past the
timeout while yielding no data and no error, the channel yields exactly the
one line `timeout` and then closes, and the source is closed — independently
of whatever the source would do afterwards. -/
theorem C4_scanner_timeout (t : Nat) (lbl : String) (rest : List ReadOutcome) :
    BuffScanner t lbl (ReadOutcome.stall :: rest) = ⟨["timeout"], true⟩ := rfl

/-- Claim C5 (spec-modelled): a source returning zero bytes with no error more
than once in a row makes the channel yield exactly the one diagnostic line
`error : multiple Read calls return no data or error` and close, with the
source closed; detection consumes only the two empty reads — nothing after
them, in particular no timeout, is ever reached — while a single zero-byte
no-error read is tolerated and scanning proceeds normally. -/
theorem C5_scanner_malfunction :
    (∀ (t : Nat) (lbl : String) (rest : List ReadOutcome),
        BuffScanner t lbl (ReadOutcome.bytes [] :: ReadOutcome.bytes [] :: rest)
          = ⟨["error : multiple Read calls return no data or error"], true⟩) ∧
    (∀ (t : Nat) (lbl : String),
        BuffScanner t lbl
            [ReadOutcome.bytes [], ReadOutcome.bytes ("a\n".data), ReadOutcome.eof]
          = ⟨["a"], true⟩) := by
  constructor
  · intro t lbl rest
    rfl
  · intro t lbl
    show scanRun [ReadOutcome.bytes [], ReadOutcome.bytes ("a\n".data), ReadOutcome.eof]
        [] 0 = ⟨["a"], true⟩
    decide

/-- Claim C6 (spec-modelled): any source whose byte content is
`beans and\nrice` — however its reads chunk those bytes — makes the channel
yield exactly `beans and` then `rice`, in that order, and close: lines arrive
in production order and the final unterminated content is still delivered as
a line. -/
theorem C6_scanner_lines (chunks : List (List Char))
    (hne : ∀ s ∈ chunks, s ≠ [])
    (hcat : chunks.flatten = ("beans and\nrice").data) (t : Nat) (lbl : String) :
    BuffScanner t lbl (chunks.map ReadOutcome.bytes ++ [ReadOutcome.eof])
      = ⟨["beans and", "rice"], true⟩ := by
  rw [BuffScanner, scanRun_bytes_eof chunks [] hne (by simp), hcat]
  decide

/-- Witness for C6 with the source's content arriving in two chunks. -/
theorem C6_scanner_lines_witness :
    BuffScanner 1 "heybuddy"
        ([("beans an".data), ("d\nrice".data)].map ReadOutcome.bytes
          ++ [ReadOutcome.eof])
      = ⟨["beans and", "rice"], true⟩ :=
  C6_scanner_lines [("beans an".data), ("d\nrice".data)] (by decide) (by decide)
    1 "heybuddy"

end Mdrip
